/-
Verification of the HVAC short-cycling detection core.

Shallow embedding of the detection pipeline found in `analyze_hvac.py` and
`api.py`:
  * readings are rows `(timestamp, unit_id, temperature, humidity,
    energy_consumption, error_code)`; timestamps are modelled as natural
    numbers (seconds), energy values as rationals;
  * the per-unit pipeline classifies ON/OFF states, detects ON→OFF
    transitions, slides a 1-hour (3600 s) window anchored at every
    transition, and flags windows holding more than three transitions;
  * the bulk entry points group rows by unit and keep only units with a
    non-empty flagged list.

The two Python files contain two textually identical copies of
`detect_short_cycling`; both copies are embedded separately (namespaces
`AnalyzeHvac` and `Api`) so that their agreement can be stated and proved.
-/
import Mathlib

/-- One row of the sensor table: `timestamp, unit_id, temperature, humidity,
energy_consumption, error_code`. Timestamps are seconds (naturals), numeric
readings are rationals. -/
structure Reading where
  timestamp : Nat
  unit_id : String
  temperature : ℚ
  humidity : ℚ
  energy_consumption : ℚ
  error_code : Int
deriving DecidableEq, Repr

/-- The 1-hour window constant `timedelta(hours=1)`, in seconds. -/
def windowSec : Nat := 3600

/-- Comparison used by `sort_values('timestamp')`: ascending timestamps. -/
def timeLE (a b : Reading) : Prop := a.timestamp ≤ b.timestamp

instance : DecidableRel timeLE := fun a b => Nat.decLe a.timestamp b.timestamp

/-- Lexicographic-by-code-point order on unit identifiers, the order Python
string comparison uses. -/
def strLT (a b : String) : Prop := a.data < b.data

instance : DecidableRel strLT :=
  fun a b => inferInstanceAs (Decidable (a.data < b.data))

/-- Comparison used by `sort_values(['unit_id', 'timestamp'])`:
lexicographic on unit id, then timestamp. -/
def unitTimeLE (a b : Reading) : Prop :=
  strLT a.unit_id b.unit_id ∨ (a.unit_id = b.unit_id ∧ a.timestamp ≤ b.timestamp)

instance : DecidableRel unitTimeLE := fun _ _ => instDecidableOr

/-- Helper for `uniqueFirst`: drops values already seen, in one left-to-right
pass. -/
def uniqueFirstAux (seen : List String) : List String → List String
  | [] => []
  | x :: xs =>
    if x ∈ seen then uniqueFirstAux seen xs
    else x :: uniqueFirstAux (seen ++ [x]) xs

/-- Model of pandas `Series.unique()`: the distinct values in order of first
appearance. -/
def uniqueFirst (l : List String) : List String := uniqueFirstAux [] l

/-- Model of Python `sorted(list(set(xs)))`: the distinct elements in
ascending order. -/
def sortDedup (xs : List Nat) : List Nat :=
  List.insertionSort (· ≤ ·) xs.dedup

namespace AnalyzeHvac

/-- `analyze_hvac.py` line 38: `df['state'] = df['energy_consumption'] >
energy_threshold` — ON (`true`) exactly when energy is strictly above the
threshold. -/
def state (th : ℚ) (r : Reading) : Bool := th < r.energy_consumption

/-- Walks the per-unit rows carrying the previous row's state
(`df['state'].shift(1)`); emits a row's timestamp when the previous state
was ON and the current state is OFF (`analyze_hvac.py` lines 50-53). -/
def transAux (th : ℚ) : Bool → List Reading → List Nat
  | _, [] => []
  | prev, r :: rest =>
    if prev && !(state th r) then r.timestamp :: transAux th (state th r) rest
    else transAux th (state th r) rest

/-- ON→OFF transition timestamps of a per-unit row sequence; the first row
has no predecessor (`shift(1)` yields NaN, and `NaN == 1` is false), so it
never produces a transition. -/
def transitions (th : ℚ) : List Reading → List Nat
  | [] => []
  | r :: rest => transAux th (state th r) rest

/-- `true` when timestamp `s` lies in the half-open window `[t, t + 1h)`
(`analyze_hvac.py` lines 69-72). -/
def inWindow (t s : Nat) : Bool := t ≤ s && s < t + windowSec

/-- Number of transitions in the 1-hour window anchored at `t`. -/
def windowCount (trans : List Nat) (t : Nat) : Nat :=
  (trans.filter (inWindow t)).length

/-- The window loop of `analyze_hvac.py` lines 63-79: for each transition
`t`, when the window `[t, t + 1h)` holds more than three transitions, every
transition timestamp in that window is appended to the accumulator unless
already present. -/
def collectFlags (trans : List Nat) : List Nat :=
  trans.foldl
    (fun acc t =>
      if windowCount trans t > 3 then
        (trans.filter (inWindow t)).foldl
          (fun acc2 s => if s ∈ acc2 then acc2 else acc2 ++ [s]) acc
      else acc)
    []

/-- `analyze_hvac.py` line 82: `sorted(list(set(short_cycle_timestamps)))`
applied to the collected window flags. -/
def flagged (trans : List Nat) : List Nat := sortDedup (collectFlags trans)

/-- `detect_short_cycling` of `analyze_hvac.py` (lines 12-87): sort rows by
`(unit_id, timestamp)`, then for each unit id in order of appearance take
that unit's rows sorted by timestamp, compute transitions and flagged
timestamps, and record units whose flagged list is non-empty. -/
def detect_short_cycling (df : List Reading) (th : ℚ) :
    List (String × List Nat) :=
  let sorted := List.insertionSort unitTimeLE df
  (uniqueFirst (sorted.map (·.unit_id))).filterMap (fun u =>
    let unitData := List.insertionSort timeLE (sorted.filter (·.unit_id = u))
    let flags := flagged (transitions th unitData)
    if flags = [] then none else some (u, flags))

end AnalyzeHvac

-- basic sanity examples on concrete data

example : AnalyzeHvac.state 1 ⟨0, "U", 70, 50, 2, 0⟩ = true := by decide
example : AnalyzeHvac.state 1 ⟨0, "U", 70, 50, 1, 0⟩ = false := by decide

/-- A reading with given time and energy for unit `u`. -/
def mkR (u : String) (t : Nat) (e : ℚ) : Reading := ⟨t, u, 70, 50, e, 0⟩

example :
    AnalyzeHvac.transitions 1
      [mkR "U" 0 2, mkR "U" 300 0, mkR "U" 600 2, mkR "U" 900 0] =
    [300, 900] := by decide

example : AnalyzeHvac.flagged [0, 600, 1200] = [] := by decide

example : AnalyzeHvac.flagged [0, 600, 1200, 1800] = [0, 600, 1200, 1800] := by
  decide

namespace Api

/-- `api.py` line 46: `df['state'] = df['energy_consumption'] >
energy_threshold`. -/
def state (th : ℚ) (r : Reading) : Bool := th < r.energy_consumption

/-- `api.py` lines 58-61: previous-state walk emitting a row's timestamp
when the previous state was ON and the current state is OFF. -/
def transAux (th : ℚ) : Bool → List Reading → List Nat
  | _, [] => []
  | prev, r :: rest =>
    if prev && !(state th r) then r.timestamp :: transAux th (state th r) rest
    else transAux th (state th r) rest

/-- ON→OFF transition timestamps of a per-unit row sequence (`api.py`
lines 57-64); the first row never produces a transition. -/
def transitions (th : ℚ) : List Reading → List Nat
  | [] => []
  | r :: rest => transAux th (state th r) rest

/-- `true` when timestamp `s` lies in `[t, t + 1h)` (`api.py` lines 77-80). -/
def inWindow (t s : Nat) : Bool := t ≤ s && s < t + windowSec

/-- Number of transitions in the 1-hour window anchored at `t`. -/
def windowCount (trans : List Nat) (t : Nat) : Nat :=
  (trans.filter (inWindow t)).length

/-- The window loop of `api.py` lines 71-87: `> 3` transitions in a window
flag every transition timestamp of that window, skipping duplicates. -/
def collectFlags (trans : List Nat) : List Nat :=
  trans.foldl
    (fun acc t =>
      if windowCount trans t > 3 then
        (trans.filter (inWindow t)).foldl
          (fun acc2 s => if s ∈ acc2 then acc2 else acc2 ++ [s]) acc
      else acc)
    []

/-- `api.py` line 90: `sorted(list(set(short_cycle_timestamps)))`. -/
def flagged (trans : List Nat) : List Nat := sortDedup (collectFlags trans)

/-- `detect_short_cycling` of `api.py` (lines 20-95), identical in text to
the copy in `analyze_hvac.py`. -/
def detect_short_cycling (df : List Reading) (th : ℚ) :
    List (String × List Nat) :=
  let sorted := List.insertionSort unitTimeLE df
  (uniqueFirst (sorted.map (·.unit_id))).filterMap (fun u =>
    let unitData := List.insertionSort timeLE (sorted.filter (·.unit_id = u))
    let flags := flagged (transitions th unitData)
    if flags = [] then none else some (u, flags))

end Api

namespace AnalyzeHvac

theorem state_eq_true_iff (th : ℚ) (r : Reading) :
    state th r = true ↔ th < r.energy_consumption := by
  simp [state]

theorem transitions_cons (th : ℚ) (r : Reading) (rest : List Reading) :
    transitions th (r :: rest) = transAux th (state th r) rest := rfl

/-- The pair to emit in the zip view of the transition detector: the
successor's timestamp, kept exactly when the predecessor was ON and the
successor is OFF. -/
def fallingEdge (th : ℚ) (pc : Reading × Reading) : Option Nat :=
  if state th pc.1 = true ∧ state th pc.2 = false then some pc.2.timestamp
  else none

theorem transAux_eq_zip (th : ℚ) :
    ∀ (rest : List Reading) (r : Reading),
      transAux th (state th r) rest =
        ((r :: rest).zip rest).filterMap (fallingEdge th) := by
  intro rest
  induction rest with
  | nil => intro r; simp [transAux]
  | cons s t ih =>
    intro r
    rw [transAux]
    have hz : ((r :: s :: t).zip (s :: t)).filterMap (fallingEdge th) =
        (fallingEdge th (r, s)).toList ++
          ((s :: t).zip t).filterMap (fallingEdge th) := by
      simp [List.filterMap_cons]
      cases fallingEdge th (r, s) <;> simp
    rw [hz, ← ih s]
    cases hr : state th r <;> cases hs : state th s <;>
      simp [fallingEdge, hr, hs]

theorem transitions_eq_zip (th : ℚ) (rs : List Reading) :
    transitions th rs = (rs.zip rs.tail).filterMap (fallingEdge th) := by
  cases rs with
  | nil => rfl
  | cons r rest => rw [transitions, transAux_eq_zip] ; rfl

end AnalyzeHvac

namespace AnalyzeHvac

theorem inWindow_iff (t s : Nat) :
    inWindow t s = true ↔ t ≤ s ∧ s < t + windowSec := by
  simp [inWindow]

theorem mem_dedupAppend_foldl :
    ∀ (ws acc : List Nat) (s : Nat),
      (s ∈ ws.foldl (fun a2 x => if x ∈ a2 then a2 else a2 ++ [x]) acc) ↔
        s ∈ acc ∨ s ∈ ws := by
  intro ws
  induction ws with
  | nil => simp
  | cons w ws ih =>
    intro acc s
    rw [List.foldl_cons, ih]
    by_cases hw : w ∈ acc
    · simp only [if_pos hw, List.mem_cons]
      constructor
      · rintro (h | h)
        · exact Or.inl h
        · exact Or.inr (Or.inr h)
      · rintro (h | rfl | h)
        · exact Or.inl h
        · exact Or.inl hw
        · exact Or.inr h
    · simp only [if_neg hw, List.mem_append, List.mem_singleton, List.mem_cons]
      tauto

theorem mem_windowLoop_foldl (trans : List Nat) :
    ∀ (l acc : List Nat) (s : Nat),
      (s ∈ l.foldl
          (fun acc t =>
            if windowCount trans t > 3 then
              (trans.filter (inWindow t)).foldl
                (fun a2 x => if x ∈ a2 then a2 else a2 ++ [x]) acc
            else acc)
          acc) ↔
        s ∈ acc ∨
          ∃ t ∈ l, 3 < windowCount trans t ∧ s ∈ trans.filter (inWindow t) := by
  intro l
  induction l with
  | nil => simp
  | cons t l ih =>
    intro acc s
    rw [List.foldl_cons]
    by_cases h : windowCount trans t > 3
    · rw [if_pos h, ih, mem_dedupAppend_foldl]
      simp only [List.mem_cons]
      constructor
      · rintro ((hs | hs) | ⟨t', ht', p⟩)
        · exact Or.inl hs
        · exact Or.inr ⟨t, Or.inl rfl, h, hs⟩
        · exact Or.inr ⟨t', Or.inr ht', p⟩
      · rintro (hs | ⟨t', (rfl | ht'), p⟩)
        · exact Or.inl (Or.inl hs)
        · exact Or.inl (Or.inr p.2)
        · exact Or.inr ⟨t', ht', p⟩
    · rw [if_neg h, ih]
      simp only [List.mem_cons]
      constructor
      · rintro (hs | ⟨t', ht', p⟩)
        · exact Or.inl hs
        · exact Or.inr ⟨t', Or.inr ht', p⟩
      · rintro (hs | ⟨t', (rfl | ht'), p⟩)
        · exact Or.inl hs
        · exact absurd p.1 h
        · exact Or.inr ⟨t', ht', p⟩

theorem mem_collectFlags (trans : List Nat) (s : Nat) :
    s ∈ collectFlags trans ↔
      s ∈ trans ∧
        ∃ t ∈ trans, 3 < windowCount trans t ∧ t ≤ s ∧ s < t + windowSec := by
  rw [collectFlags, mem_windowLoop_foldl]
  simp only [List.not_mem_nil, false_or, List.mem_filter, inWindow_iff]
  constructor
  · rintro ⟨t, ht, hc, hs, hw⟩
    exact ⟨hs, t, ht, hc, hw⟩
  · rintro ⟨hs, t, ht, hc, hw⟩
    exact ⟨t, ht, hc, hs, hw⟩

end AnalyzeHvac

theorem mem_sortDedup (xs : List Nat) (s : Nat) :
    s ∈ sortDedup xs ↔ s ∈ xs := by
  rw [sortDedup, (List.perm_insertionSort _ _).mem_iff]
  exact List.mem_dedup

theorem sortDedup_nodup (xs : List Nat) : (sortDedup xs).Nodup :=
  ((List.perm_insertionSort _ _).nodup_iff).2 (List.nodup_dedup xs)

theorem sortDedup_sorted (xs : List Nat) : (sortDedup xs).Sorted (· ≤ ·) :=
  List.sorted_insertionSort _ _

section Agreement

theorem api_state_eq (th : ℚ) (r : Reading) :
    Api.state th r = AnalyzeHvac.state th r := rfl

theorem api_transAux_eq (th : ℚ) :
    ∀ (rs : List Reading) (b : Bool),
      Api.transAux th b rs = AnalyzeHvac.transAux th b rs := by
  intro rs
  induction rs with
  | nil => intro b; rfl
  | cons r rest ih =>
    intro b
    rw [Api.transAux, AnalyzeHvac.transAux, api_state_eq, ih]

theorem api_transitions_eq (th : ℚ) (rs : List Reading) :
    Api.transitions th rs = AnalyzeHvac.transitions th rs := by
  cases rs with
  | nil => rfl
  | cons r rest =>
    rw [Api.transitions, AnalyzeHvac.transitions, api_state_eq, api_transAux_eq]

theorem api_inWindow_eq : Api.inWindow = AnalyzeHvac.inWindow := rfl

theorem api_windowCount_eq : Api.windowCount = AnalyzeHvac.windowCount := rfl

theorem api_collectFlags_eq (trans : List Nat) :
    Api.collectFlags trans = AnalyzeHvac.collectFlags trans := rfl

theorem api_flagged_eq (trans : List Nat) :
    Api.flagged trans = AnalyzeHvac.flagged trans := rfl

end Agreement

/-- C1: the Cycling Window Evaluator flags exactly the transitions that lie
in some window `[t, t + 1h)` whose left edge `t` is itself a transition and
whose transition count exceeds the minimum-count bound; the output is
deduplicated (each flagged timestamp appears exactly once) and sorted. -/
theorem C1_cycling_window_evaluator (trans : List Nat) :
    (∀ s : Nat,
      s ∈ AnalyzeHvac.flagged trans ↔
        (s ∈ trans ∧
          ∃ t ∈ trans,
            3 < AnalyzeHvac.windowCount trans t ∧ t ≤ s ∧ s < t + windowSec))
    ∧ (AnalyzeHvac.flagged trans).Nodup
    ∧ (AnalyzeHvac.flagged trans).Sorted (· ≤ ·) := by
  refine ⟨fun s => ?_, sortDedup_nodup _, sortDedup_sorted _⟩
  rw [AnalyzeHvac.flagged, mem_sortDedup]
  exact AnalyzeHvac.mem_collectFlags trans s

/-- C4: the State Classifier returns ON exactly when `energy_consumption` is
strictly greater than the threshold; a reading exactly at the threshold
classifies as OFF. -/
theorem C4_state_classifier_strictly_greater (th : ℚ) (r : Reading) :
    (AnalyzeHvac.state th r = true ↔ th < r.energy_consumption)
    ∧ (r.energy_consumption = th → AnalyzeHvac.state th r = false) := by
  refine ⟨AnalyzeHvac.state_eq_true_iff th r, fun h => ?_⟩
  simp [AnalyzeHvac.state, h]

/-- C5: the Transition Detector emits the timestamp of a reading exactly
when that reading's state is OFF and the immediately preceding reading's
state is ON (the zip-with-tail view pairs each reading with its
predecessor, so the first reading never produces a transition), and an
empty or single-reading input yields the empty sequence. -/
theorem C5_transition_detector (th : ℚ) :
    (∀ rs : List Reading,
      AnalyzeHvac.transitions th rs =
        (rs.zip rs.tail).filterMap (fun pc =>
          if AnalyzeHvac.state th pc.1 = true ∧ AnalyzeHvac.state th pc.2 = false
          then some pc.2.timestamp else none))
    ∧ AnalyzeHvac.transitions th [] = []
    ∧ ∀ r : Reading, AnalyzeHvac.transitions th [r] = [] := by
  refine ⟨fun rs => AnalyzeHvac.transitions_eq_zip th rs, rfl, fun r => rfl⟩

namespace AnalyzeHvac

/-- Episode loop of `print_short_cycling_results` (`analyze_hvac.py` lines
115-128): a timestamp within 1 hour of the current episode's previous
member joins that episode, otherwise the episode is closed and a new one
starts. `cur` is the episode built so far and `last` its final member. -/
def episodesAux (cur : List Nat) (last : Nat) : List Nat → List (List Nat)
  | [] => [cur]
  | t :: rest =>
    if t - last ≤ windowSec then episodesAux (cur ++ [t]) t rest
    else cur :: episodesAux [t] t rest

/-- Groups a flagged-timestamp list into contiguous event episodes. -/
def episodes : List Nat → List (List Nat)
  | [] => []
  | t :: rest => episodesAux [t] t rest

/-- The gap from `a` to the next timestamp `b` stays within the 1-hour
window. -/
def gapClose (a b : Nat) : Prop := b - a ≤ windowSec

/-- Two adjacent episodes are separated by a gap beyond the window: the
first's final member and the second's first member are more than 1 hour
apart. -/
def epFar (e1 e2 : List Nat) : Prop :=
  ∃ a b, e1.getLast? = some a ∧ e2.head? = some b ∧ ¬ b - a ≤ windowSec

end AnalyzeHvac

/-- C9: on every input table and threshold, the `detect_short_cycling` of
`analyze_hvac.py` and the `detect_short_cycling` of `api.py` return equal
results — the same unit keys mapped to the same ordered flagged lists. -/
theorem C9_detect_implementations_agree (df : List Reading) (th : ℚ) :
    AnalyzeHvac.detect_short_cycling df th = Api.detect_short_cycling df th := by
  simp only [AnalyzeHvac.detect_short_cycling, Api.detect_short_cycling,
    api_transitions_eq, api_flagged_eq]

/-- C2 counterexample: a window holding exactly three transitions
(`windowCount = 3` at the left edge `0`) is flagged by neither observed
implementation, so no observed variant applies the at-least-3 comparator —
the claim that the two variants apply different minimum-count comparators
is false. -/
theorem C2_counterexample :
    AnalyzeHvac.windowCount [0, 600, 1200] 0 = 3
    ∧ AnalyzeHvac.flagged [0, 600, 1200] = []
    ∧ Api.flagged [0, 600, 1200] = [] := by decide

/-- C2 (amended): both observed detection implementations flag windows
containing strictly more than 3 transitions — the two variants apply the
same strictly-greater-than comparator to the per-window transition count. -/
theorem C2_amended_both_strictly_greater (trans : List Nat) (s : Nat) :
    (s ∈ AnalyzeHvac.flagged trans ↔
      s ∈ trans ∧
        ∃ t ∈ trans,
          3 < AnalyzeHvac.windowCount trans t ∧ t ≤ s ∧ s < t + windowSec)
    ∧ (s ∈ Api.flagged trans ↔
      s ∈ trans ∧
        ∃ t ∈ trans,
          3 < Api.windowCount trans t ∧ t ≤ s ∧ s < t + windowSec) := by
  constructor
  · rw [AnalyzeHvac.flagged, mem_sortDedup]
    exact AnalyzeHvac.mem_collectFlags trans s
  · rw [api_flagged_eq, api_windowCount_eq, AnalyzeHvac.flagged, mem_sortDedup]
    exact AnalyzeHvac.mem_collectFlags trans s

namespace AnalyzeHvac

theorem episodesAux_spec (rest : List Nat) :
    ∀ (c : Nat) (cs : List Nat) (last : Nat),
      (c :: cs).getLast? = some last →
      (c :: cs).Chain' gapClose →
      (episodesAux (c :: cs) last rest ≠ []
        ∧ (episodesAux (c :: cs) last rest).flatten = (c :: cs) ++ rest
        ∧ (∀ e ∈ episodesAux (c :: cs) last rest, e ≠ [] ∧ e.Chain' gapClose)
        ∧ (episodesAux (c :: cs) last rest).Chain' epFar
        ∧ (episodesAux (c :: cs) last rest).head?.bind List.head? = some c) := by
  induction rest with
  | nil =>
    intro c cs last _ hchain
    refine ⟨by simp [episodesAux], by simp [episodesAux], ?_, ?_, by simp [episodesAux]⟩
    · intro e he
      rw [episodesAux, List.mem_singleton] at he
      exact he ▸ ⟨List.cons_ne_nil c cs, hchain⟩
    · rw [episodesAux]
      exact List.chain'_singleton _
  | cons t rs ih =>
    intro c cs last hlast hchain
    rw [episodesAux]
    by_cases h : t - last ≤ windowSec
    · rw [if_pos h]
      have hcat : (c :: cs) ++ [t] = c :: (cs ++ [t]) := by simp
      have hl : (c :: (cs ++ [t])).getLast? = some t := by
        rw [← hcat]; exact List.getLast?_concat _
      have hc : (c :: (cs ++ [t])).Chain' gapClose := by
        rw [← hcat]
        refine List.chain'_append.2 ⟨hchain, List.chain'_singleton _, ?_⟩
        intro x hx y hy
        rw [hlast, Option.mem_some_iff] at hx
        simp only [List.head?_cons, Option.mem_some_iff] at hy
        exact hx ▸ hy ▸ h
      obtain ⟨h1, h2, h3, h4, h5⟩ := ih c (cs ++ [t]) t hl hc
      rw [hcat]
      refine ⟨h1, ?_, h3, h4, h5⟩
      rw [h2, ← hcat, List.append_assoc]
      rfl
    · rw [if_neg h]
      obtain ⟨h1, h2, h3, h4, h5⟩ :=
        ih t [] t rfl (List.chain'_singleton t)
      refine ⟨List.cons_ne_nil _ _, ?_, ?_, ?_, by simp⟩
      · rw [List.flatten_cons, h2]
        rfl
      · intro e he
        rcases List.mem_cons.1 he with rfl | he'
        · exact ⟨List.cons_ne_nil c cs, hchain⟩
        · exact h3 e he'
      · refine List.chain'_cons'.2 ⟨?_, h4⟩
        intro e he
        rw [Option.mem_def] at he
        rw [he] at h5
        exact ⟨last, t, hlast, by simpa using h5, h⟩

theorem episodes_spec (l : List Nat) :
    (episodes l).flatten = l
    ∧ (∀ e ∈ episodes l, e ≠ [] ∧ e.Chain' gapClose)
    ∧ (episodes l).Chain' epFar := by
  cases l with
  | nil =>
    refine ⟨rfl, ?_, ?_⟩
    · intro e he
      exact absurd he (List.not_mem_nil e)
    · exact List.chain'_nil
  | cons t rest =>
    obtain ⟨_, h2, h3, h4, _⟩ :=
      episodesAux_spec rest t [] t rfl (List.chain'_singleton t)
    exact ⟨h2, h3, h4⟩

end AnalyzeHvac

theorem mem_uniqueFirstAux :
    ∀ (l seen : List String) (u : String),
      u ∈ uniqueFirstAux seen l ↔ u ∈ l ∧ u ∉ seen := by
  intro l
  induction l with
  | nil => simp [uniqueFirstAux]
  | cons x xs ih =>
    intro seen u
    rw [uniqueFirstAux]
    by_cases hx : x ∈ seen
    · rw [if_pos hx, ih]
      simp only [List.mem_cons]
      constructor
      · rintro ⟨hu, hs⟩
        exact ⟨Or.inr hu, hs⟩
      · rintro ⟨rfl | hu, hs⟩
        · exact absurd hx hs
        · exact ⟨hu, hs⟩
    · rw [if_neg hx]
      constructor
      · intro hmem
        rcases List.mem_cons.1 hmem with rfl | htail
        · exact ⟨List.mem_cons_self _ _, hx⟩
        · obtain ⟨hu, hs⟩ := (ih (seen ++ [x]) u).1 htail
          refine ⟨List.mem_cons_of_mem _ hu, fun hin => hs ?_⟩
          exact List.mem_append.2 (Or.inl hin)
      · rintro ⟨hmem, hs⟩
        rcases List.mem_cons.1 hmem with rfl | hu
        · exact List.mem_cons_self _ _
        · by_cases hux : u = x
          · exact hux ▸ List.mem_cons_self _ _
          · refine List.mem_cons_of_mem _ ((ih (seen ++ [x]) u).2 ⟨hu, fun hin => ?_⟩)
            rcases List.mem_append.1 hin with h1 | h2
            · exact hs h1
            · exact hux (List.mem_singleton.1 h2)

theorem nodup_uniqueFirstAux :
    ∀ (l seen : List String), (uniqueFirstAux seen l).Nodup := by
  intro l
  induction l with
  | nil => intro seen; simp [uniqueFirstAux]
  | cons x xs ih =>
    intro seen
    rw [uniqueFirstAux]
    by_cases hx : x ∈ seen
    · rw [if_pos hx]; exact ih seen
    · rw [if_neg hx]
      refine List.nodup_cons.2 ⟨fun hmem => ?_, ih (seen ++ [x])⟩
      exact ((mem_uniqueFirstAux xs (seen ++ [x]) x).1 hmem).2
        (List.mem_append.2 (Or.inr (List.mem_singleton.2 rfl)))

theorem mem_uniqueFirst (l : List String) (u : String) :
    u ∈ uniqueFirst l ↔ u ∈ l := by
  rw [uniqueFirst, mem_uniqueFirstAux]
  simp

theorem nodup_uniqueFirst (l : List String) : (uniqueFirst l).Nodup :=
  nodup_uniqueFirstAux l []

/-- Severity levels of an `AnomalyEvent` (spec §3). -/
inductive Severity
  | LOW
  | MEDIUM
  | CRITICAL
deriving DecidableEq, Repr

/-- Health status tiers of a `SystemHealth` record (spec §3). -/
inductive Status
  | HEALTHY
  | WARNING
  | CRITICAL
deriving DecidableEq, Repr

/-- Anomaly classes; short-cycling is the only one in this design. -/
inductive IssueType
  | SHORT_CYCLING
deriving DecidableEq, Repr

/-- Modelled from the spec: `AnomalyEvent` (§3) — the Health Synthesizer and
its record types have no implementation under `src/`. The human-readable
description stating the transition count is modelled by the count itself. -/
structure AnomalyEvent where
  issue_type : IssueType
  severity : Severity
  timestamps : List Nat
  transition_count : Nat
deriving DecidableEq, Repr

/-- Modelled from the spec: `SystemHealth` (§3); `raw_metrics_summary` is the
latest reading's temperature, energy consumption and error code cast to a
numeric triple. -/
structure SystemHealth where
  unit_id : String
  status : Status
  last_contact : Nat
  anomalies : List AnomalyEvent
  raw_metrics : ℚ × ℚ × ℚ
deriving DecidableEq, Repr

/-- pandas `Series.idxmax` row selection used by `get_latest` (`api.py`
line 157): the first row attaining the maximal timestamp, `none` on an
empty table (pandas raises there). -/
def idxmaxRow : List Reading → Option Reading
  | [] => none
  | r :: rs =>
    some (rs.foldl (fun best x => if best.timestamp < x.timestamp then x else best) r)

/-- Modelled from the spec: the Anomaly Aggregator's event synthesis (§4.4) —
each episode of the sorted deduplicated flagged set becomes one
`AnomalyEvent` with fixed issue type and CRITICAL severity. -/
def aggregateAnomalies (flags : List Nat) : List AnomalyEvent :=
  (AnalyzeHvac.episodes (sortDedup flags)).map (fun e =>
    { issue_type := IssueType.SHORT_CYCLING
      severity := Severity.CRITICAL
      timestamps := e
      transition_count := e.length })

/-- Modelled from the spec: the Health Synthesizer (§4.5) — runs the embedded
detection pipeline and aggregator on one unit's reading history, fails with
`none` (NotFound) when the unit has no readings, and sets status CRITICAL
when any anomaly exists, else HEALTHY. -/
def synthesizeHealth (th : ℚ) (u : String) (rs : List Reading) :
    Option SystemHealth :=
  match idxmaxRow rs with
  | none => none
  | some latest =>
    let flags := AnalyzeHvac.flagged
      (AnalyzeHvac.transitions th (List.insertionSort timeLE rs))
    let anomalies := aggregateAnomalies flags
    some
      { unit_id := u
        status := if anomalies = [] then Status.HEALTHY else Status.CRITICAL
        last_contact := latest.timestamp
        anomalies := anomalies
        raw_metrics :=
          (latest.temperature, latest.energy_consumption, (latest.error_code : ℚ)) }

/-- C3: every synthesized `SystemHealth` record has status CRITICAL exactly
when its anomaly list is non-empty and status HEALTHY exactly when it is
empty; the WARNING tier is never assigned. -/
theorem C3_health_status_critical_iff (th : ℚ) (u : String) (rs : List Reading)
    (sh : SystemHealth) (h : synthesizeHealth th u rs = some sh) :
    (sh.status = Status.CRITICAL ↔ sh.anomalies ≠ [])
    ∧ (sh.status = Status.HEALTHY ↔ sh.anomalies = [])
    ∧ sh.status ≠ Status.WARNING := by
  rw [synthesizeHealth] at h
  cases hm : idxmaxRow rs with
  | none => rw [hm] at h; cases h
  | some latest =>
    rw [hm] at h
    simp only [Option.some_inj] at h
    subst h
    by_cases ha :
        aggregateAnomalies
          (AnalyzeHvac.flagged
            (AnalyzeHvac.transitions th (List.insertionSort timeLE rs))) = [] <;>
      simp [ha]

/-- Witness for C3 at a concrete single-reading history: the synthesizer
returns a record and the status/anomaly equivalences hold for it. -/
theorem C3_health_status_critical_iff_witness :
    (synthesizeHealth 1 "U1" [mkR "U1" 0 2] =
      some
        { unit_id := "U1"
          status := Status.HEALTHY
          last_contact := 0
          anomalies := []
          raw_metrics := (70, 2, 0) })
    ∧ ((Status.HEALTHY = Status.CRITICAL ↔ ([] : List AnomalyEvent) ≠ [])
        ∧ (Status.HEALTHY = Status.HEALTHY ↔ ([] : List AnomalyEvent) = [])
        ∧ Status.HEALTHY ≠ Status.WARNING) := by
  have h : synthesizeHealth 1 "U1" [mkR "U1" 0 2] =
      some
        { unit_id := "U1"
          status := Status.HEALTHY
          last_contact := 0
          anomalies := []
          raw_metrics := (70, 2, 0) } := by decide
  exact ⟨h, C3_health_status_critical_iff 1 "U1" [mkR "U1" 0 2] _ h⟩

/-- C8: the Anomaly Aggregator sorts the flagged-timestamp set ascending and
deduplicates it, then partitions it into episodes: the episodes concatenate
back to the sorted deduplicated list, every episode is a non-empty run whose
consecutive members are at most the 1-hour window apart, and adjacent
episodes are separated by a gap exceeding the window — so each maximal
close-gap run forms exactly one episode. -/
theorem C8_anomaly_aggregator (ts : List Nat) :
    (sortDedup ts).Sorted (· ≤ ·)
    ∧ (sortDedup ts).Nodup
    ∧ (∀ s : Nat, s ∈ sortDedup ts ↔ s ∈ ts)
    ∧ (AnalyzeHvac.episodes (sortDedup ts)).flatten = sortDedup ts
    ∧ (∀ e ∈ AnalyzeHvac.episodes (sortDedup ts),
        e ≠ [] ∧ e.Chain' AnalyzeHvac.gapClose)
    ∧ (AnalyzeHvac.episodes (sortDedup ts)).Chain' AnalyzeHvac.epFar := by
  obtain ⟨h1, h2, h3⟩ := AnalyzeHvac.episodes_spec (sortDedup ts)
  exact ⟨sortDedup_sorted ts, sortDedup_nodup ts, mem_sortDedup ts, h1, h2, h3⟩

/-- Modelled from the spec: the ISO-8601 serialization at the boundary
(pandas `Timestamp.isoformat`, library code outside `src/`), abstracted to
an injective hours:minutes:seconds rendering of the timestamp. -/
def pad2 (n : Nat) : String := if n < 10 then "0" ++ toString n else toString n

/-- Timestamp serialization applied by the endpoints (`ts.isoformat()`). -/
def isoformat (t : Nat) : String :=
  toString (t / 3600) ++ ":" ++ pad2 (t % 3600 / 60) ++ ":" ++ pad2 (t % 60)

/-- Failure modes of the API endpoints: the 500 response when no dataset is
loaded, and the `ValueError` pandas raises for `idxmax` of an empty
column. -/
inductive ApiError
  | dataNotLoaded
  | emptyArgmax
deriving DecidableEq, Repr

/-- `diagnose` endpoint of `api.py` (lines 164-186): fails when no dataset
is loaded, otherwise runs `detect_short_cycling` at threshold 1.0 and
ISO-serializes every flagged timestamp. -/
def diagnose (df : Option (List Reading)) :
    Except ApiError (List (String × List String)) :=
  match df with
  | none => Except.error ApiError.dataNotLoaded
  | some d =>
    Except.ok
      ((Api.detect_short_cycling d 1).map (fun p => (p.1, p.2.map isoformat)))

/-- The flagged timestamps the detection pipeline computes for unit `u` of
table `d`: the unit's rows of the `(unit_id, timestamp)`-sorted table,
re-sorted by timestamp, run through transition detection and window
evaluation. -/
def unitFlags (d : List Reading) (th : ℚ) (u : String) : List Nat :=
  Api.flagged (Api.transitions th
    (List.insertionSort timeLE
      ((List.insertionSort unitTimeLE d).filter (·.unit_id = u))))

theorem detect_eq_filterMap (d : List Reading) (th : ℚ) :
    Api.detect_short_cycling d th =
      (uniqueFirst ((List.insertionSort unitTimeLE d).map (·.unit_id))).filterMap
        (fun u =>
          if unitFlags d th u = [] then none else some (u, unitFlags d th u)) :=
  rfl

theorem mem_detect (d : List Reading) (th : ℚ) (u : String) (fl : List Nat) :
    (u, fl) ∈ Api.detect_short_cycling d th ↔
      unitFlags d th u ≠ [] ∧ fl = unitFlags d th u ∧ u ∈ d.map (·.unit_id) := by
  have hperm : ((List.insertionSort unitTimeLE d).map (·.unit_id)).Perm
      (d.map (·.unit_id)) := (List.perm_insertionSort _ _).map _
  rw [detect_eq_filterMap, List.mem_filterMap]
  constructor
  · rintro ⟨a, ha, hfa⟩
    by_cases hz : unitFlags d th a = []
    · rw [if_pos hz] at hfa; cases hfa
    · rw [if_neg hz] at hfa
      have h1 : a = u := congrArg Prod.fst (Option.some.inj hfa)
      have h2 : unitFlags d th a = fl := congrArg Prod.snd (Option.some.inj hfa)
      subst h1
      refine ⟨hz, h2.symm, ?_⟩
      exact hperm.mem_iff.1 ((mem_uniqueFirst _ a).1 ha)
  · rintro ⟨hne, rfl, hu⟩
    refine ⟨u, (mem_uniqueFirst _ u).2 (hperm.mem_iff.2 hu), ?_⟩
    rw [if_neg hne]

theorem nodup_keys_filterMap (g : String → List Nat) (l : List String)
    (hl : l.Nodup) :
    ((l.filterMap
        (fun u => if g u = [] then none else some (u, g u))).map
      Prod.fst).Nodup := by
  induction l with
  | nil => simp
  | cons x xs ih =>
    rcases List.nodup_cons.1 hl with ⟨hx, hxs⟩
    by_cases hz : g x = []
    · have hstep :
          (x :: xs).filterMap (fun u => if g u = [] then none else some (u, g u)) =
            xs.filterMap (fun u => if g u = [] then none else some (u, g u)) := by
        simp [List.filterMap_cons, hz]
      rw [hstep]
      exact ih hxs
    · have hstep :
          (x :: xs).filterMap (fun u => if g u = [] then none else some (u, g u)) =
            (x, g x) ::
              xs.filterMap (fun u => if g u = [] then none else some (u, g u)) := by
        simp [List.filterMap_cons, hz]
      rw [hstep, List.map_cons]
      refine List.nodup_cons.2 ⟨fun hmem => hx ?_, ih hxs⟩
      obtain ⟨p, hp, hfst⟩ := List.mem_map.1 hmem
      obtain ⟨a, ha, hfa⟩ := List.mem_filterMap.1 hp
      by_cases hza : g a = []
      · rw [if_pos hza] at hfa; cases hfa
      · rw [if_neg hza] at hfa
        have hax : a = x :=
          (congrArg Prod.fst (Option.some.inj hfa)).trans hfst
        exact hax ▸ ha

theorem detect_keys_nodup (d : List Reading) (th : ℚ) :
    ((Api.detect_short_cycling d th).map Prod.fst).Nodup := by
  rw [detect_eq_filterMap]
  exact nodup_keys_filterMap _ _ (nodup_uniqueFirst _)

/-- C6: the bulk diagnosis operation fails only without a loaded dataset;
on a loaded table it returns a key-deduplicated mapping whose entries are
exactly the units with a non-empty flagged list, each mapped to its flagged
timestamps rendered through the serialization boundary — so with two units
of which only one exhibits short-cycling the mapping has exactly one key. -/
theorem C6_bulk_diagnosis (d : List Reading) :
    diagnose none = Except.error ApiError.dataNotLoaded
    ∧ ∃ res : List (String × List String),
        diagnose (some d) = Except.ok res
        ∧ (res.map Prod.fst).Nodup
        ∧ (∀ u l, (u, l) ∈ res →
            unitFlags d 1 u ≠ [] ∧ l = (unitFlags d 1 u).map isoformat)
        ∧ (∀ u, u ∈ d.map (·.unit_id) → unitFlags d 1 u ≠ [] →
            (u, (unitFlags d 1 u).map isoformat) ∈ res) := by
  refine ⟨rfl, _, rfl, ?_, ?_, ?_⟩
  · rw [List.map_map]
    have : (Prod.fst ∘ fun p : String × List Nat => (p.1, p.2.map isoformat)) =
        Prod.fst := rfl
    rw [this]
    exact detect_keys_nodup d 1
  · intro u l hul
    obtain ⟨p, hp, hpe⟩ := List.mem_map.1 hul
    have h1 : p.1 = u := congrArg Prod.fst hpe
    have h2 : p.2.map isoformat = l := congrArg Prod.snd hpe
    have hmem : (p.1, p.2) ∈ Api.detect_short_cycling d 1 := hp
    rw [mem_detect] at hmem
    obtain ⟨hne, hfl, _⟩ := hmem
    rw [h1] at hne hfl
    exact ⟨hne, by rw [← h2, hfl]⟩
  · intro u hu hne
    refine List.mem_map.2 ⟨(u, unitFlags d 1 u), ?_, rfl⟩
    exact (mem_detect d 1 u _).2 ⟨hne, rfl, hu⟩

/-- The serialized row `get_latest` returns: the selected reading with its
timestamp rendered as a string (`result['timestamp'] =
result['timestamp'].isoformat()`). -/
structure LatestOut where
  timestamp : String
  unit_id : String
  temperature : ℚ
  humidity : ℚ
  energy_consumption : ℚ
  error_code : Int
deriving DecidableEq, Repr

/-- `get_latest` endpoint of `api.py` (lines 143-162): 500 when no dataset
is loaded; otherwise the row at `df['timestamp'].idxmax()` with its
timestamp ISO-serialized — pandas raises on an empty column, modelled as
the `emptyArgmax` failure. -/
def get_latest (df : Option (List Reading)) : Except ApiError LatestOut :=
  match df with
  | none => Except.error ApiError.dataNotLoaded
  | some d =>
    match idxmaxRow d with
    | none => Except.error ApiError.emptyArgmax
    | some m =>
      Except.ok
        { timestamp := isoformat m.timestamp
          unit_id := m.unit_id
          temperature := m.temperature
          humidity := m.humidity
          energy_consumption := m.energy_consumption
          error_code := m.error_code }

theorem idxmax_foldl_spec :
    ∀ (rs : List Reading) (r : Reading),
      ∃ m : Reading,
        rs.foldl (fun best x => if best.timestamp < x.timestamp then x else best) r
            = m
        ∧ (∀ x ∈ rs, x.timestamp ≤ m.timestamp)
        ∧ (m = r ∨
            ∃ a b, rs = a ++ m :: b ∧ r.timestamp < m.timestamp
              ∧ ∀ y ∈ a, y.timestamp < m.timestamp) := by
  intro rs
  induction rs with
  | nil =>
    intro r
    exact ⟨r, rfl, fun x hx => absurd hx (List.not_mem_nil x), Or.inl rfl⟩
  | cons x xs ih =>
    intro r
    rw [List.foldl_cons]
    by_cases h : r.timestamp < x.timestamp
    · obtain ⟨m, hm, hmax, hcases⟩ := ih x
      rw [if_pos h]
      refine ⟨m, hm, ?_, Or.inr ?_⟩
      · intro z hz
        rcases List.mem_cons.1 hz with rfl | hz'
        · rcases hcases with rfl | ⟨a, b, hdec, hgt, hbefore⟩
          · exact le_refl _
          · exact le_of_lt hgt
        · exact hmax z hz'
      · rcases hcases with rfl | ⟨a, b, hdec, hgt, hbefore⟩
        · exact ⟨[], xs, rfl, h, fun y hy => absurd hy (List.not_mem_nil y)⟩
        · refine ⟨x :: a, b, congrArg (List.cons x) hdec, lt_trans h hgt, ?_⟩
          intro y hy
          rcases List.mem_cons.1 hy with rfl | hy'
          · exact hgt
          · exact hbefore y hy'
    · obtain ⟨m, hm, hmax, hcases⟩ := ih r
      rw [if_neg h]
      refine ⟨m, hm, ?_, ?_⟩
      · intro z hz
        rcases List.mem_cons.1 hz with rfl | hz'
        · rcases hcases with rfl | ⟨a, b, hdec, hgt, hbefore⟩
          · exact le_of_not_lt h
          · exact le_trans (le_of_not_lt h) (le_of_lt hgt)
        · exact hmax z hz'
      · rcases hcases with rfl | ⟨a, b, hdec, hgt, hbefore⟩
        · exact Or.inl rfl
        · refine Or.inr ⟨x :: a, b, congrArg (List.cons x) hdec, hgt, ?_⟩
          intro y hy
          rcases List.mem_cons.1 hy with rfl | hy'
          · exact lt_of_le_of_lt (le_of_not_lt h) hgt
          · exact hbefore y hy'

theorem idxmaxRow_spec (r : Reading) (rs : List Reading) :
    ∃ m, idxmaxRow (r :: rs) = some m
      ∧ m ∈ r :: rs
      ∧ (∀ x ∈ r :: rs, x.timestamp ≤ m.timestamp)
      ∧ ∃ a b, r :: rs = a ++ m :: b ∧ ∀ y ∈ a, y.timestamp < m.timestamp := by
  obtain ⟨m, hm, hmax, hcases⟩ := idxmax_foldl_spec rs r
  refine ⟨m, congrArg some hm, ?_, ?_, ?_⟩
  · rcases hcases with rfl | ⟨a, b, hdec, hgt, hbefore⟩
    · exact List.mem_cons_self _ _
    · refine List.mem_cons_of_mem _ ?_
      rw [hdec]
      exact List.mem_append.2 (Or.inr (List.mem_cons_self _ _))
  · intro z hz
    rcases List.mem_cons.1 hz with rfl | hz'
    · rcases hcases with rfl | ⟨a, b, hdec, hgt, hbefore⟩
      · exact le_refl _
      · exact le_of_lt hgt
    · exact hmax z hz'
  · rcases hcases with rfl | ⟨a, b, hdec, hgt, hbefore⟩
    · exact ⟨[], rs, rfl, fun y hy => absurd hy (List.not_mem_nil y)⟩
    · refine ⟨r :: a, b, congrArg (List.cons r) hdec, ?_⟩
      intro y hy
      rcases List.mem_cons.1 hy with rfl | hy'
      · exact hgt
      · exact hbefore y hy'

/-- C10 counterexample: a loaded but empty dataset also makes the
latest-reading query fail (pandas `idxmax` raises on an empty column), so
"fails only when no dataset is loaded" is false as stated. -/
theorem C10_counterexample :
    get_latest (some ([] : List Reading)) = Except.error ApiError.emptyArgmax :=
  rfl

/-- C10 (amended): the latest-reading query takes no unit identifier; on a
non-empty loaded dataset it returns the first-in-row-order reading whose
timestamp is maximal across all units pooled together, with the timestamp
serialized; it fails when no dataset is loaded and on a loaded empty
dataset. -/
theorem C10_amended_get_latest (d : List Reading) (h : d ≠ []) :
    get_latest none = Except.error ApiError.dataNotLoaded
    ∧ ∃ m : Reading,
        idxmaxRow d = some m
        ∧ get_latest (some d) =
            Except.ok
              { timestamp := isoformat m.timestamp
                unit_id := m.unit_id
                temperature := m.temperature
                humidity := m.humidity
                energy_consumption := m.energy_consumption
                error_code := m.error_code }
        ∧ m ∈ d
        ∧ (∀ x ∈ d, x.timestamp ≤ m.timestamp)
        ∧ ∃ a b, d = a ++ m :: b ∧ ∀ y ∈ a, y.timestamp < m.timestamp := by
  refine ⟨rfl, ?_⟩
  cases d with
  | nil => exact absurd rfl h
  | cons r rs =>
    obtain ⟨m, hm, hmem, hmax, hfirst⟩ := idxmaxRow_spec r rs
    refine ⟨m, hm, ?_, hmem, hmax, hfirst⟩
    rw [get_latest, hm]

/-- Witness for C10 (amended) at a concrete two-unit table. -/
theorem C10_amended_get_latest_witness :
    get_latest none = Except.error ApiError.dataNotLoaded
    ∧ ∃ m : Reading,
        idxmaxRow [mkR "U1" 0 2, mkR "U2" 500 0, mkR "U1" 300 1] = some m
        ∧ get_latest (some [mkR "U1" 0 2, mkR "U2" 500 0, mkR "U1" 300 1]) =
            Except.ok
              { timestamp := isoformat m.timestamp
                unit_id := m.unit_id
                temperature := m.temperature
                humidity := m.humidity
                energy_consumption := m.energy_consumption
                error_code := m.error_code }
        ∧ m ∈ [mkR "U1" 0 2, mkR "U2" 500 0, mkR "U1" 300 1]
        ∧ (∀ x ∈ [mkR "U1" 0 2, mkR "U2" 500 0, mkR "U1" 300 1],
            x.timestamp ≤ m.timestamp)
        ∧ ∃ a b, [mkR "U1" 0 2, mkR "U2" 500 0, mkR "U1" 300 1] = a ++ m :: b
            ∧ ∀ y ∈ a, y.timestamp < m.timestamp :=
  C10_amended_get_latest [mkR "U1" 0 2, mkR "U2" 500 0, mkR "U1" 300 1]
    (by decide)

/-- The per-unit detection pipeline of `analyze_hvac.py`: defensive
timestamp sort, transition detection, window evaluation. -/
def unitPipeline (th : ℚ) (rs : List Reading) : List Nat :=
  AnalyzeHvac.flagged
    (AnalyzeHvac.transitions th (List.insertionSort timeLE rs))

/-- A unit history with four ON→OFF transitions (at 6000, 6600, 7200, 7800)
inside one hour, all flagged by the window `[6000, 9600)`. -/
def C7orig : List Reading :=
  [mkR "U" 5700 2, mkR "U" 6000 0, mkR "U" 6300 2, mkR "U" 6600 0,
   mkR "U" 6900 2, mkR "U" 7200 0, mkR "U" 7500 2, mkR "U" 7800 0]

/-- An OFF-state reading at 5820, strictly before the only flagged window
`[6000, 9600)` of `C7orig`. -/
def C7ins : Reading := mkR "U" 5820 0

/-- C7 counterexample: the inserted reading is OFF and its timestamp lies
strictly outside every flagged 1-hour window of the original history, yet
the flagged set changes — the insertion lands between an ON reading and the
flagged OFF reading at 6000, so the falling edge moves to 5820 and the
previously flagged timestamp 6000 disappears. -/
theorem C7_counterexample :
    AnalyzeHvac.state 1 C7ins = false
    ∧ (∀ t ∈ AnalyzeHvac.transitions 1 (List.insertionSort timeLE C7orig),
        3 < AnalyzeHvac.windowCount
            (AnalyzeHvac.transitions 1 (List.insertionSort timeLE C7orig)) t →
        ¬(t ≤ C7ins.timestamp ∧ C7ins.timestamp < t + windowSec))
    ∧ unitPipeline 1 C7orig = [6000, 6600, 7200, 7800]
    ∧ unitPipeline 1 (C7orig ++ [C7ins]) = [5820, 6600, 7200, 7800] := by
  decide

namespace AnalyzeHvac

/-- The ON/OFF state after traversing `l`: the state of the last row of
`l`, defaulting to `b` when `l` is empty — the "previous state" the
transition walk carries. -/
def lastState (th : ℚ) (b : Bool) : List Reading → Bool
  | [] => b
  | y :: ys => lastState th (state th y) ys

theorem lastState_cons (th : ℚ) (b : Bool) (y : Reading) (ys : List Reading) :
    lastState th b (y :: ys) = lastState th (state th y) ys := rfl

theorem lastState_of_getLast (th : ℚ) :
    ∀ (ys : List Reading) (y : Reading),
      (∀ p, (y :: ys).getLast? = some p → state th p = false) →
      lastState th (state th y) ys = false := by
  intro ys
  induction ys with
  | nil => intro y hpred; exact hpred y rfl
  | cons z zs ih =>
    intro y hpred
    show lastState th (state th z) zs = false
    exact ih z (fun p hp => hpred p (by rw [List.getLast?_cons_cons]; exact hp))

theorem transAux_false (th : ℚ) (l : List Reading) :
    transAux th false l = transitions th l := by
  cases l with
  | nil => rfl
  | cons s t => simp [transAux, transitions]

theorem transAux_insert_off (th : ℚ) (r : Reading)
    (hr : state th r = false) :
    ∀ (rs1 : List Reading) (b : Bool) (rs2 : List Reading),
      lastState th b rs1 = false →
      transAux th b (rs1 ++ r :: rs2) = transAux th b (rs1 ++ rs2) := by
  intro rs1
  induction rs1 with
  | nil =>
    intro b rs2 hlast
    have hb : b = false := hlast
    subst hb
    rw [List.nil_append, List.nil_append]
    simp [transAux, hr]
  | cons y ys ih =>
    intro b rs2 hlast
    rw [List.cons_append, List.cons_append]
    rw [lastState_cons] at hlast
    simp only [transAux]
    rw [ih (state th y) rs2 hlast]

theorem transitions_insert_off (th : ℚ) (r : Reading)
    (hr : state th r = false) (rs1 rs2 : List Reading)
    (hpred : ∀ p, rs1.getLast? = some p → state th p = false) :
    transitions th (rs1 ++ r :: rs2) = transitions th (rs1 ++ rs2) := by
  cases rs1 with
  | nil =>
    rw [List.nil_append, List.nil_append, transitions, hr, transAux_false]
  | cons y ys =>
    rw [List.cons_append, List.cons_append, transitions, transitions]
    apply transAux_insert_off th r hr
    exact lastState_of_getLast th ys y hpred

end AnalyzeHvac

/-- C7 (amended): inserting an additional OFF-state reading at a timestamp
strictly outside every existing 1-hour flagged window, whose immediately
preceding reading in time order (if any) is also in the OFF state, leaves
the flagged timestamps of the detection pipeline unchanged — the
transition sequence itself is unaltered by such an insertion. -/
theorem C7_amended_insert_off (th : ℚ) (rs1 rs2 : List Reading) (r : Reading)
    (hsorted : (rs1 ++ r :: rs2).Sorted timeLE)
    (hr : AnalyzeHvac.state th r = false)
    (hpred : ∀ p, rs1.getLast? = some p → AnalyzeHvac.state th p = false)
    (_houtside : ∀ t ∈ AnalyzeHvac.transitions th (rs1 ++ rs2),
        3 < AnalyzeHvac.windowCount
            (AnalyzeHvac.transitions th (rs1 ++ rs2)) t →
        ¬(t ≤ r.timestamp ∧ r.timestamp < t + windowSec)) :
    unitPipeline th (rs1 ++ r :: rs2) = unitPipeline th (rs1 ++ rs2) := by
  have hsub : (rs1 ++ rs2).Sublist (rs1 ++ r :: rs2) :=
    List.Sublist.append_left (List.sublist_cons_self r rs2) rs1
  have hsorted2 : (rs1 ++ rs2).Sorted timeLE :=
    List.Pairwise.sublist hsub hsorted
  rw [unitPipeline, unitPipeline, hsorted.insertionSort_eq,
    hsorted2.insertionSort_eq,
    AnalyzeHvac.transitions_insert_off th r hr rs1 rs2 hpred]

/-- Witness for C7 (amended): inserting an OFF reading at 400 s after the
OFF reading at 300 s leaves the (unflagged) pipeline output unchanged. -/
theorem C7_amended_insert_off_witness :
    unitPipeline 1
        ([mkR "U" 0 2, mkR "U" 300 0] ++
          mkR "U" 400 0 :: [mkR "U" 600 2, mkR "U" 900 0]) =
      unitPipeline 1
        ([mkR "U" 0 2, mkR "U" 300 0] ++ [mkR "U" 600 2, mkR "U" 900 0]) :=
  C7_amended_insert_off 1 [mkR "U" 0 2, mkR "U" 300 0]
    [mkR "U" 600 2, mkR "U" 900 0] (mkR "U" 400 0)
    (by decide) (by decide)
    (fun p hp => by injection hp with h; rw [← h]; decide)
    (by decide)
